import Mathlib

/-!
Verification of the heuristic extraction / schema-alignment engine and the
generate→verify→retry orchestration loop of `Agent.py`.

The Python source has three layers:
* the generated parser (`PARSER_TEMPLATE`): `_extract_tables` (pdfplumber
  per-page extraction with a text fallback) and `parse` (per-candidate
  DataFrame build, fuzzy column alignment via `difflib.get_close_matches`,
  null-filling, schema projection, concatenation and cleanup);
* `write_parser` / `write_test` (artifact synthesis);
* `main` (missing-input checks and the bounded retry loop).

The embedding below models pandas / difflib / re at the granularity the code
uses them:
* a DataFrame is a `Frame`: a list of column names plus row-major cells;
  a cell is a string or a null sentinel (`Cell.na r` carries the Python
  `str()` rendering of the sentinel: `pd.NA ↦ "<NA>"`, `None ↦ "None"`);
* `pd.DataFrame(rows, columns=header)` succeeds iff the rows are empty or
  their maximal width equals the header width (shorter rows are padded with
  the null sentinel), and raises otherwise;
* `difflib.get_close_matches(w, cs, n=1, cutoff=0.6)` is modelled by
  `getCloseMatch` with the Ratcliff–Obershelp total-match count
  (`matchTotal`), the similarity ratio kept as an exact pair
  (match count, length total), and the `heapq.nlargest` tie-break on
  `(ratio, string)` tuples.  Ratios are compared exactly as rationals;
  CPython compares them as binary doubles, which agrees with the rational
  order for all string lengths occurring here (distinct ratios with
  denominators of this size differ by far more than one ulp, and a ratio
  exactly 3/5 rounds to the very double produced by the literal `0.6`);
* `re.split(r"\s{2,}|\t", line)` splits at maximal whitespace runs of
  length ≥ 2 and at single tabs (`reSplitWs`).
-/

/-! ### Python string helpers -/

/-- Whitespace characters of `re`'s `\s` and `str.strip` (ASCII range;
the documents at hand contain no further Unicode whitespace). -/
def isPySpace (c : Char) : Bool :=
  c = ' ' || c = '\t' || c = '\n' || c = '\r' || c = '\x0b' || c = '\x0c'

/-- Python `str.strip()`. -/
def pyStrip (s : String) : String :=
  String.mk (((s.data.dropWhile isPySpace).reverse.dropWhile isPySpace).reverse)

/-- `re.sub(r"\s+", " ", ·)`: collapse every whitespace run to one space.
The flag records whether the previous character was whitespace. -/
def collapseWsAux : Bool → List Char → List Char
  | _, [] => []
  | prev, c :: cs =>
    if isPySpace c then
      if prev then collapseWsAux true cs else ' ' :: collapseWsAux true cs
    else c :: collapseWsAux false cs

/-- Column-label normalisation `re.sub(r"\s+", " ", str(c)).strip()`. -/
def normLabel (s : String) : String :=
  pyStrip (String.mk (collapseWsAux false s.data))

/-- Lexicographic (code-point) comparison, Python `<` on `str`. -/
def lexLt : List Char → List Char → Bool
  | [], [] => false
  | [], _ :: _ => true
  | _ :: _, [] => false
  | c :: cs, d :: ds => if c = d then lexLt cs ds else decide (c.val < d.val)

/-- Python `x > y` on strings. -/
def pyStrGt (x y : String) : Bool := lexLt y.data x.data

/-! ### `re.split(r"\s{2,}|\t", line)`

A maximal whitespace run is a separator iff it has length ≥ 2 or is a single
tab; a single non-tab whitespace character stays inside the token.  `run` is
the pending whitespace run, `tok` the token under construction. -/

/-- Does a maximal whitespace run match `\s{2,}|\t`? -/
def runIsSep (run : List Char) : Bool := run.length ≥ 2 || run = ['\t']

def reSplitGo : List Char → List Char → List Char → List (List Char)
  | [], run, tok => if runIsSep run then [tok, []] else [tok ++ run]
  | c :: cs, run, tok =>
    if isPySpace c then reSplitGo cs (run ++ [c]) tok
    else if runIsSep run then tok :: reSplitGo cs [] [c]
    else reSplitGo cs [] (tok ++ run ++ [c])

/-- `re.split(r"\s{2,}|\t", line)`. -/
def reSplitWs (l : List Char) : List (List Char) := reSplitGo l [] []

/-! ### difflib: `SequenceMatcher.ratio` and `get_close_matches` -/

/-- Length of the common prefix of two character lists. -/
def commonPrefixLen : List Char → List Char → Nat
  | a :: as, b :: bs => if a = b then commonPrefixLen as bs + 1 else 0
  | _, _ => 0

/-- All `(i, j, k)` with `k` the longest match of `a.drop i` against
`b.drop j` starting at their heads. -/
def lmCandidates (a b : List Char) : List (Nat × Nat × Nat) :=
  (List.range a.length).flatMap fun i =>
    (List.range b.length).map fun j => (i, j, commonPrefixLen (a.drop i) (b.drop j))

/-- Keep the first triple attaining the maximal `k` (so the smallest `i`,
then the smallest `j`, exactly `find_longest_match`'s documented rule). -/
def pickBest (l : List (Nat × Nat × Nat)) : Nat × Nat × Nat :=
  l.foldl (fun best c => if best.2.2 < c.2.2 then c else best) (0, 0, 0)

/-- `SequenceMatcher.find_longest_match` over whole sequences (no junk:
`b` is far shorter than the autojunk threshold 200). -/
def bestMatch (a b : List Char) : Nat × Nat × Nat := pickBest (lmCandidates a b)

/-- Total size of all matching blocks (Ratcliff–Obershelp): recurse left and
right of the longest match.  Fuel-indexed so that the kernel can evaluate it;
`a.length + b.length` fuel always suffices. -/
def matchTotalF : Nat → List Char → List Char → Nat
  | 0, _, _ => 0
  | fuel + 1, a, b =>
    let t := bestMatch a b
    if t.2.2 = 0 then 0
    else
      t.2.2 + matchTotalF fuel (a.take t.1) (b.take t.2.1) +
        matchTotalF fuel (a.drop (t.1 + t.2.2)) (b.drop (t.2.1 + t.2.2))

/-- Sum of the sizes of all matching blocks of `a` and `b`. -/
def matchTotal (a b : List Char) : Nat := matchTotalF (a.length + b.length) a b

/-- The ratio `2*M/T` of `SequenceMatcher(None, x, w).ratio()`, kept as the
exact pair `(M, T)`; `T = 0` stands for ratio `1.0`. -/
def ratioPair (x w : String) : Nat × Nat :=
  (matchTotal x.data w.data, x.data.length + w.data.length)

/-- `ratio ≥ 0.6`: for `T = 0` the ratio is `1.0`; otherwise
`2M/T ≥ 3/5 ↔ 10M ≥ 3T` (also true at `T = 0`). -/
def cutoffOK (r : Nat × Nat) : Bool := 3 * r.2 ≤ 10 * r.1

/-- Strict ratio comparison `2M₁/T₁ > 2M₂/T₂` (with `T = 0` meaning `1`). -/
def rGT : Nat × Nat → Nat × Nat → Bool
  | (m1, t1), (m2, t2) =>
    if t1 = 0 then if t2 = 0 then false else decide (2 * m2 < t2)
    else if t2 = 0 then decide (t1 < 2 * m1)
    else decide (m2 * t1 < m1 * t2)

/-- Ratio equality `2M₁/T₁ = 2M₂/T₂` (with `T = 0` meaning `1`). -/
def rEQ : Nat × Nat → Nat × Nat → Bool
  | (m1, t1), (m2, t2) =>
    if t1 = 0 then if t2 = 0 then true else decide (2 * m2 = t2)
    else if t2 = 0 then decide (2 * m1 = t1)
    else decide (m1 * t2 = m2 * t1)

/-- One step of `get_close_matches`' scan: keep the candidate at/above the
cutoff whose `(ratio, string)` tuple is largest, first seen on tie (the
`heapq.nlargest(1, ·)` rule on `(score, x)` tuples). -/
def gcmStep (w : String) (best : Option ((Nat × Nat) × String)) (x : String) :
    Option ((Nat × Nat) × String) :=
  let r := ratioPair x w
  if cutoffOK r then
    match best with
    | none => some (r, x)
    | some (br, bx) =>
      if rGT r br || (rEQ r br && pyStrGt x bx) then some (r, x) else some (br, bx)
  else best

/-- `get_close_matches(w, cands, n=1, cutoff=0.6)`, as the single best
candidate (`none` when the returned list is empty). -/
def getCloseMatch (w : String) (cands : List String) : Option String :=
  (cands.foldl (gcmStep w) none).map (·.2)

/-! ### Data model: raw tables and DataFrames -/

/-- A cell extracted from the document: pdfplumber delivers a string or
`None` (absent). -/
abbrev RawCell := Option String

/-- A raw candidate table: rows of raw cells; row 0 is the header candidate. -/
abbrev RawTable := List (List RawCell)

/-- A DataFrame cell: a string, or a null sentinel.  The argument of `na`
records the Python `str()` rendering of the concrete sentinel
(`pd.NA ↦ "<NA>"`, `None ↦ "None"`), which is what `astype(str)` yields. -/
inductive Cell where
  | str (s : String)
  | na (r : String)
deriving DecidableEq, Repr

/-- A pandas DataFrame: ordered column labels and row-major cells.  All
columns arising in this pipeline have object dtype (string/sentinel data),
so dtypes are not tracked. -/
structure Frame where
  cols : List String
  rows : List (List Cell)
deriving DecidableEq, Repr

/-- `str(c)` on a raw cell used as a column label (`str(None) = "None"`). -/
def pyStrCell : RawCell → String
  | some s => s
  | none => "None"

/-- A raw data cell as a DataFrame cell. -/
def rawToCell : RawCell → Cell
  | some s => .str s
  | none => .na "None"

/-- Width of the widest row (how pandas sizes a ragged list-of-lists). -/
def maxWidth (rows : List (List RawCell)) : Nat :=
  rows.foldl (fun m r => max m r.length) 0

/-- Cell `j` of row `r`, padded with the sentinel (`lib.to_object_array`
pads short rows with `None`). -/
def padCell (r : List RawCell) (j : Nat) : Cell :=
  match r.get? j with
  | some c => rawToCell c
  | none => .na "None"

/-- `pd.DataFrame(data, columns=header)` on a list of lists: succeeds with
the header as labels if `data` is empty or its maximal width equals the
header width (short rows padded); otherwise raises
("`n` columns passed, passed data had `m` columns"), modelled as `none`. -/
def dfBuild (header : List RawCell) (data : List (List RawCell)) : Option Frame :=
  if data = [] then some ⟨header.map pyStrCell, []⟩
  else if maxWidth data = header.length then
    some ⟨header.map pyStrCell,
      data.map fun r => (List.range header.length).map (padCell r)⟩
  else none

/-! ### The fuzzy-match mapping (a Python dict) -/

/-- `m[k] = v` on an insertion-ordered dict as association list. -/
def upsert : List (String × String) → String → String → List (String × String)
  | [], k, v => [(k, v)]
  | p :: ps, k, v => if p.1 = k then (k, v) :: ps else p :: upsert ps k v

/-- Dict lookup. -/
def lookupA : List (String × String) → String → Option String
  | [], _ => none
  | p :: ps, k => if p.1 = k then some p.2 else lookupA ps k

/-- The `mapping` dict: for each expected column, the closest current label
(if any) is mapped to the expected name; a label claimed by several expected
names keeps the last claim. -/
def buildMapping (schema cols : List String) : List (String × String) :=
  schema.foldl
    (fun m exp =>
      match getCloseMatch exp cols with
      | some k => upsert m k exp
      | none => m)
    []

/-- `df.rename(columns=mapping)` on one label. -/
def applyMap (m : List (String × String)) (c : String) : String :=
  (lookupA m c).getD c

/-! ### Alignment of one candidate table -/

/-- The `for col in EXPECTED_COLUMNS: if col not in df.columns: df[col] = pd.NA`
loop: each missing schema column is appended, filled with `pd.NA`. -/
def fillMissing (schema : List String) (st : List String × List (List Cell)) :
    List String × List (List Cell) :=
  schema.foldl
    (fun st col =>
      if col ∈ st.1 then st
      else (st.1 ++ [col], st.2.map (· ++ [Cell.na "<NA>"])))
    st

/-- Row part of `df[EXPECTED_COLUMNS]`: for each requested name, the cells of
every column bearing it, in column order. -/
def projRow (schema cols : List String) (r : List Cell) : List Cell :=
  schema.flatMap fun nm => ((cols.zip r).filter (fun p => p.1 = nm)).map (·.2)

/-- `df[EXPECTED_COLUMNS]`: every occurrence of each requested label, in
request order (after the fill loop each schema label occurs, so the pandas
`KeyError` case cannot arise). -/
def projFrame (schema : List String) (F : Frame) : Frame :=
  ⟨schema.flatMap fun nm => F.cols.filter (· = nm),
   F.rows.map (projRow schema F.cols)⟩

/-- Label normalisation, fuzzy rename, null-fill and schema projection
applied to one built (or fallback) DataFrame — lines 66–79 of the parser
template. -/
def postProcess (schema : List String) (F : Frame) : Frame :=
  let n := F.cols.map normLabel
  let m := buildMapping schema n
  let renamed := n.map (applyMap m)
  let st := fillMissing schema (renamed, F.rows)
  projFrame schema ⟨st.1, st.2⟩

/-- `" ".join(r)` (all cells must be present, else `join` raises). -/
def joinRow (r : List RawCell) : Cell :=
  .str (String.intercalate " " (r.map (fun c => c.getD "")))

/-- The `except` branch: one-column DataFrame of every row of `t` joined by
single spaces.  `" ".join` raises `TypeError` on an absent (`None`) cell —
inside the handler this propagates — modelled as `none`. -/
def fallbackFrame (t : RawTable) : Option Frame :=
  if t.all (fun r => r.all (fun c => c.isSome)) then
    some ⟨["raw"], t.map (fun r => [joinRow r])⟩
  else none

/-- Alignment of one non-empty candidate `t` (lines 57–79): build with row 0
as header, fall back to the joined-text single column on a structural
mismatch, then normalise/rename/fill/project.  `none` means an exception
escapes `parse`.  (`parse` never reaches this code for `t = []`.) -/
def alignCandidate (schema : List String) (t : RawTable) : Option Frame :=
  match t with
  | [] => none
  | header :: data =>
    match dfBuild header data with
    | some F => some (postProcess schema F)
    | none => (fallbackFrame (header :: data)).map (postProcess schema)

/-! ### Assembly and cleanup -/

/-- `astype(str).str.strip()` on one cell: a string is stripped, a sentinel
becomes its `str()` rendering (then stripped, a no-op for `"<NA>"`, `"None"`,
`"nan"`). -/
def cleanCell : Cell → Cell
  | .str s => .str (pyStrip s)
  | .na r => .str (pyStrip r)

/-- The final cleanup loop (lines 84–85): every (object-dtype) column is
cast to `str` and stripped. -/
def cleanupFrame (F : Frame) : Frame :=
  ⟨F.cols, F.rows.map (List.map cleanCell)⟩

/-- Cell at row `i`, column position `j`. -/
def getCell (F : Frame) (i j : Nat) : Option Cell :=
  F.rows[i]?.bind fun r => r[j]?

/-- `pd.concat([A, B], ignore_index=True)` for frames with identical column
labels (the only shape the pipeline concatenates): rows of `A` then rows
of `B`. -/
def concat2 (A B : Frame) : Frame := ⟨A.cols, A.rows ++ B.rows⟩

/-- Lines 81–88: concatenate the aligned candidates and clean up; an empty
candidate list yields an empty frame whose columns are the schema. -/
def assembleFrames (schema : List String) : List Frame → Frame
  | [] => ⟨schema, []⟩
  | c :: cs => cleanupFrame (cs.foldl concat2 c)

/-! ### The extractor -/

/-- One pdfplumber page, by its two observations used in `_extract_tables`:
`extract_table()` (`none` = `None`) and `extract_text()`. -/
structure Page where
  table : Option (List (List RawCell))
  text : Option String

/-- `text.splitlines()` (newline-separated; the extracted text uses
`\n`). -/
def splitNl : List Char → List (List Char)
  | [] => [[]]
  | c :: cs =>
    if c = '\n' then [] :: splitNl cs
    else
      match splitNl cs with
      | [] => [[c]]
      | t :: ts => (c :: t) :: ts

/-- Non-empty stripped lines of a page's text. -/
def pageLines (s : String) : List String :=
  ((splitNl s.data).map (fun l => pyStrip (String.mk l))).filter (· ≠ "")

/-- One text line as a token row. -/
def tokenizeLine (s : String) : List RawCell :=
  (reSplitWs s.data).map (fun cs => some (String.mk cs))

/-- The text fallback of `_extract_tables` for one page: token rows of the
non-empty stripped lines, if any. -/
def textRows : Option String → Option RawTable
  | none => none
  | some s =>
    let ls := pageLines s
    if ls = [] then none else some (ls.map tokenizeLine)

/-- `_extract_tables`' per-page contribution: a truthy structured table
verbatim, else the text fallback, else nothing. -/
def extractPage (p : Page) : Option RawTable :=
  match p.table with
  | some t => if t = [] then textRows p.text else some t
  | none => textRows p.text

/-- `_extract_tables`: at most one raw table per page, in page order. -/
def extractTables (doc : List Page) : List RawTable :=
  doc.filterMap extractPage

/-- `parse(pdf_path)` (lines 51–88): extract candidates, skip empty ones,
align each (an alignment exception aborts the whole parse), then assemble.
`none` models an escaped exception. -/
def parseDoc (schema : List String) (doc : List Page) : Option Frame :=
  let step : Option (List Frame) → RawTable → Option (List Frame) :=
    fun acc t =>
      match acc with
      | none => none
      | some cs =>
        if t = [] then some cs
        else
          match alignCandidate schema t with
          | none => none
          | some f => some (cs ++ [f])
  match (extractTables doc).foldl step (some []) with
  | none => none
  | some cands => some (assembleFrames schema cands)

/-! ### Synthesis (`write_parser`) -/

/-- Python `repr` of a list of strings (schema names here contain no quote
or escape characters). -/
def pyReprList (cols : List String) : String :=
  "[" ++ String.intercalate ", " (cols.map fun s => "'" ++ s ++ "'") ++ "]"

/-- `PARSER_TEMPLATE.format(target=target, expected_columns=expected_columns)`:
the emitted artifact text is a pure function of `(target, schema)`; its
behaviour is `parseDoc schema`, since the template closes only over
`EXPECTED_COLUMNS`. -/
def parserSource (target : String) (cols : List String) : String :=
  "\"\"\"Auto-generated parser for " ++ target ++ ".\n" ++
    "\"\"\"\nEXPECTED_COLUMNS = " ++ pyReprList cols ++ "\n"

/-- The `custom_parser` directory as a map from target name to artifact
text. -/
def ParserStore := String → Option String

/-- `write_parser`: `path.write_text` replaces whatever artifact the target
had before. -/
def writeParser (store : ParserStore) (target : String) (cols : List String) :
    ParserStore :=
  fun k => if k = target then some (parserSource target cols) else store k

/-! ### The orchestrator (`main`, lines 139–174) -/

/-- The attempt numbers `range(1, max_attempts + 1)` with `max_attempts = 3`. -/
def attemptList : List Nat := List.range' 1 3

/-- The retry loop over a list of attempt numbers, given the (external)
pytest verdict of each attempt: returns the first passing attempt (if any)
and the number of synthesize/execute/compare cycles run. -/
def runLoopC (p : Nat → Bool) : List Nat → Option Nat × Nat
  | [] => (none, 0)
  | a :: rest =>
    if p a then (some a, 1)
    else
      let r := runLoopC p rest
      (r.1, r.2 + 1)

/-- The environment `main` runs against: existence of the data folder,
`sample.pdf` and `expected.csv`, and the pytest verdict of each attempt. -/
structure Env where
  folderExists : Bool
  pdfExists : Bool
  csvExists : Bool
  pass_ : Nat → Bool

/-- `main` (lines 149–174): the missing-input checks exit with code 2 before
any attempt; otherwise the bounded loop runs — success exits 0 (falling off
`main`), exhaustion exits 1.  Result: (exit code, cycles run). -/
def agentMain (e : Env) : Nat × Nat :=
  if e.folderExists = false then (2, 0)
  else if (e.pdfExists && e.csvExists) = false then (2, 0)
  else
    match runLoopC e.pass_ attemptList with
    | (some _, c) => (0, c)
    | (none, c) => (1, c)

/-! ### Lemmas about the matcher -/

theorem cpl_le_left : ∀ a b : List Char, commonPrefixLen a b ≤ a.length
  | [], _ => by simp [commonPrefixLen]
  | _ :: _, [] => by simp [commonPrefixLen]
  | a :: as, b :: bs => by
    simp only [commonPrefixLen, List.length_cons]
    split
    · exact Nat.succ_le_succ (cpl_le_left as bs)
    · exact Nat.zero_le _

theorem cpl_le_right : ∀ a b : List Char, commonPrefixLen a b ≤ b.length
  | [], _ => by simp [commonPrefixLen]
  | _ :: _, [] => by simp [commonPrefixLen]
  | a :: as, b :: bs => by
    simp only [commonPrefixLen, List.length_cons]
    split
    · exact Nat.succ_le_succ (cpl_le_right as bs)
    · exact Nat.zero_le _

theorem cpl_take :
    ∀ a b : List Char, a.take (commonPrefixLen a b) = b.take (commonPrefixLen a b)
  | [], _ => by simp [commonPrefixLen]
  | _ :: _, [] => by simp [commonPrefixLen]
  | a :: as, b :: bs => by
    simp only [commonPrefixLen]
    split
    · rename_i hab
      simp [List.take_succ_cons, hab, cpl_take as bs]
    · simp

theorem cpl_self : ∀ a : List Char, commonPrefixLen a a = a.length
  | [] => by simp [commonPrefixLen]
  | a :: as => by simp [commonPrefixLen, cpl_self as]

theorem lmCandidates_mem {a b : List Char} {c : Nat × Nat × Nat}
    (h : c ∈ lmCandidates a b) :
    c.1 < a.length ∧ c.2.1 < b.length ∧
      c.2.2 = commonPrefixLen (a.drop c.1) (b.drop c.2.1) := by
  simp only [lmCandidates, List.mem_flatMap, List.mem_map, List.mem_range] at h
  obtain ⟨i, hi, j, hj, rfl⟩ := h
  exact ⟨hi, hj, rfl⟩

/-- The fold step of `pickBest` returns the old or the new triple. -/
theorem pickBest_fold_cases :
    ∀ (l : List (Nat × Nat × Nat)) (b : Nat × Nat × Nat),
      l.foldl (fun best c => if best.2.2 < c.2.2 then c else best) b = b ∨
        l.foldl (fun best c => if best.2.2 < c.2.2 then c else best) b ∈ l
  | [], b => Or.inl rfl
  | c :: cs, b => by
    simp only [List.foldl_cons]
    rcases pickBest_fold_cases cs (if b.2.2 < c.2.2 then c else b) with h | h
    · rw [h]
      split
      · exact Or.inr (List.mem_cons_self _ _)
      · exact Or.inl rfl
    · exact Or.inr (List.mem_cons_of_mem _ h)

theorem pickBest_mem (l : List (Nat × Nat × Nat)) :
    pickBest l = (0, 0, 0) ∨ pickBest l ∈ l :=
  pickBest_fold_cases l (0, 0, 0)

theorem pickBest_fold_stay :
    ∀ (l : List (Nat × Nat × Nat)) (b : Nat × Nat × Nat),
      (∀ c ∈ l, c.2.2 ≤ b.2.2) →
      l.foldl (fun best c => if best.2.2 < c.2.2 then c else best) b = b
  | [], b, _ => rfl
  | c :: cs, b, h => by
    simp only [List.foldl_cons]
    rw [if_neg (by have := h c (List.mem_cons_self _ _); omega)]
    exact pickBest_fold_stay cs b fun c hc => h c (List.mem_cons_of_mem _ hc)

/-- If the head of the candidate list already attains the maximum (with a
positive match), `pickBest` keeps it. -/
theorem pickBest_first {c0 : Nat × Nat × Nat} {rest : List (Nat × Nat × Nat)}
    (h0 : 0 < c0.2.2) (hall : ∀ c ∈ rest, c.2.2 ≤ c0.2.2) :
    pickBest (c0 :: rest) = c0 := by
  unfold pickBest
  simp only [List.foldl_cons]
  rw [if_pos h0]
  exact pickBest_fold_stay rest c0 hall

theorem bestMatch_cases (a b : List Char) :
    bestMatch a b = (0, 0, 0) ∨ bestMatch a b ∈ lmCandidates a b :=
  pickBest_mem _

/-- Shape facts about a positive longest match. -/
theorem bestMatch_bounds {a b : List Char} (h : (bestMatch a b).2.2 ≠ 0) :
    (bestMatch a b).1 < a.length ∧ (bestMatch a b).2.1 < b.length ∧
      (bestMatch a b).1 + (bestMatch a b).2.2 ≤ a.length ∧
      (bestMatch a b).2.1 + (bestMatch a b).2.2 ≤ b.length ∧
      (a.drop (bestMatch a b).1).take (bestMatch a b).2.2 =
        (b.drop (bestMatch a b).2.1).take (bestMatch a b).2.2 := by
  rcases bestMatch_cases a b with h0 | hm
  · rw [h0] at h; simp at h
  · obtain ⟨h1, h2, h3⟩ := lmCandidates_mem hm
    have hk1 : (bestMatch a b).2.2 ≤ a.length - (bestMatch a b).1 := by
      rw [h3]
      calc commonPrefixLen (a.drop (bestMatch a b).1) (b.drop (bestMatch a b).2.1)
          ≤ (a.drop (bestMatch a b).1).length := cpl_le_left _ _
        _ = a.length - (bestMatch a b).1 := List.length_drop _ _
    have hk2 : (bestMatch a b).2.2 ≤ b.length - (bestMatch a b).2.1 := by
      rw [h3]
      calc commonPrefixLen (a.drop (bestMatch a b).1) (b.drop (bestMatch a b).2.1)
          ≤ (b.drop (bestMatch a b).2.1).length := cpl_le_right _ _
        _ = b.length - (bestMatch a b).2.1 := List.length_drop _ _
    refine ⟨h1, h2, by omega, by omega, ?_⟩
    rw [h3]
    exact cpl_take _ _

theorem lmCandidates_head {a b : List Char} (ha : a ≠ []) (hb : b ≠ []) :
    ∃ rest, lmCandidates a b = (0, 0, commonPrefixLen a b) :: rest := by
  obtain ⟨x, xs, rfl⟩ := List.exists_cons_of_ne_nil ha
  obtain ⟨y, ys, rfl⟩ := List.exists_cons_of_ne_nil hb
  simp only [lmCandidates, List.length_cons, List.range_succ_eq_map,
    List.flatMap_cons, List.map_cons, List.drop_zero, List.cons_append]
  exact ⟨_, rfl⟩

/-- On identical non-empty inputs the longest match is everything. -/
theorem bestMatch_self {a : List Char} (ha : a ≠ []) :
    bestMatch a a = (0, 0, a.length) := by
  obtain ⟨rest, hr⟩ := lmCandidates_head ha ha
  have hall : ∀ c ∈ rest, c.2.2 ≤ a.length := by
    intro c hc
    have hc' : c ∈ lmCandidates a a := by
      rw [hr]; exact List.mem_cons_of_mem _ hc
    obtain ⟨h1, h2, h3⟩ := lmCandidates_mem hc'
    calc c.2.2 = commonPrefixLen (a.drop c.1) (a.drop c.2.1) := h3
      _ ≤ (a.drop c.1).length := cpl_le_left _ _
      _ ≤ a.length := by rw [List.length_drop]; omega
  have hlen : 0 < a.length := List.length_pos.mpr ha
  unfold bestMatch
  rw [hr, cpl_self, pickBest_first (by simpa using hlen) (by simpa using hall)]

theorem bestMatch_nil_left (b : List Char) : bestMatch [] b = (0, 0, 0) := by
  simp [bestMatch, lmCandidates, pickBest]

theorem bestMatch_nil_right (a : List Char) : bestMatch a [] = (0, 0, 0) := by
  have h : ∀ l : List Nat, (l.flatMap fun _ => ([] : List (Nat × Nat × Nat))) = [] := by
    intro l; induction l <;> simp_all
  simp [bestMatch, lmCandidates, pickBest, h]

theorem matchTotalF_nil_nil (f : Nat) : matchTotalF f [] [] = 0 := by
  cases f with
  | zero => rfl
  | succ f => simp [matchTotalF, bestMatch_nil_left]

/-- The total match never exceeds either length. -/
theorem matchTotalF_le (f : Nat) :
    ∀ a b : List Char, matchTotalF f a b ≤ min a.length b.length := by
  induction f with
  | zero => intro a b; simp [matchTotalF]
  | succ f ih =>
    intro a b
    by_cases hk : (bestMatch a b).2.2 = 0
    · simp [matchTotalF, hk]
    · obtain ⟨h1, h2, h3, h4, _⟩ := bestMatch_bounds hk
      have hA := ih (a.take (bestMatch a b).1) (b.take (bestMatch a b).2.1)
      have hB := ih (a.drop ((bestMatch a b).1 + (bestMatch a b).2.2))
        (b.drop ((bestMatch a b).2.1 + (bestMatch a b).2.2))
      simp only [List.length_take, List.length_drop] at hA hB
      simp only [matchTotalF]
      rw [if_neg hk]
      omega

/-- A perfect ratio forces equality: if twice the total match is the length
sum, the sequences coincide. -/
theorem matchTotalF_eq (f : Nat) :
    ∀ a b : List Char, 2 * matchTotalF f a b = a.length + b.length → a = b := by
  induction f with
  | zero =>
    intro a b h
    simp only [matchTotalF, Nat.mul_zero] at h
    have ha : a = [] := List.length_eq_zero.mp (by omega)
    have hb : b = [] := List.length_eq_zero.mp (by omega)
    rw [ha, hb]
  | succ f ih =>
    intro a b h
    by_cases hk : (bestMatch a b).2.2 = 0
    · simp only [matchTotalF] at h
      rw [if_pos hk, Nat.mul_zero] at h
      have ha : a = [] := List.length_eq_zero.mp (by omega)
      have hb : b = [] := List.length_eq_zero.mp (by omega)
      rw [ha, hb]
    · obtain ⟨h1, h2, h3, h4, hblock⟩ := bestMatch_bounds hk
      simp only [matchTotalF] at h
      rw [if_neg hk] at h
      have hA := matchTotalF_le f (a.take (bestMatch a b).1) (b.take (bestMatch a b).2.1)
      have hB := matchTotalF_le f (a.drop ((bestMatch a b).1 + (bestMatch a b).2.2))
        (b.drop ((bestMatch a b).2.1 + (bestMatch a b).2.2))
      simp only [List.length_take, List.length_drop] at hA hB
      have e1 : a.take (bestMatch a b).1 = b.take (bestMatch a b).2.1 := by
        apply ih
        simp only [List.length_take]
        omega
      have e2 : a.drop ((bestMatch a b).1 + (bestMatch a b).2.2) =
          b.drop ((bestMatch a b).2.1 + (bestMatch a b).2.2) := by
        apply ih
        simp only [List.length_drop]
        omega
      have hij : (bestMatch a b).1 = (bestMatch a b).2.1 := by omega
      calc a = a.take (bestMatch a b).1 ++ a.drop (bestMatch a b).1 :=
            (List.take_append_drop _ _).symm
        _ = a.take (bestMatch a b).1 ++
              ((a.drop (bestMatch a b).1).take (bestMatch a b).2.2 ++
                (a.drop (bestMatch a b).1).drop (bestMatch a b).2.2) := by
            rw [List.take_append_drop (bestMatch a b).2.2 (a.drop (bestMatch a b).1)]
        _ = b.take (bestMatch a b).2.1 ++
              ((b.drop (bestMatch a b).2.1).take (bestMatch a b).2.2 ++
                (b.drop (bestMatch a b).2.1).drop (bestMatch a b).2.2) := by
            rw [e1, hblock, List.drop_drop, List.drop_drop, hij]
            rw [hij] at e2
            rw [e2]
        _ = b := by rw [List.take_append_drop, List.take_append_drop]

theorem matchTotalF_self_pos (f : Nat) (a : List Char) :
    matchTotalF (f + 1) a a = a.length := by
  rcases eq_or_ne a [] with rfl | ha
  · simp [matchTotalF, bestMatch_nil_left]
  · have hlen : 0 < a.length := List.length_pos.mpr ha
    simp only [matchTotalF, bestMatch_self ha]
    rw [if_neg (by omega)]
    simp [matchTotalF_nil_nil, List.drop_length]

theorem matchTotal_le (a b : List Char) : matchTotal a b ≤ min a.length b.length :=
  matchTotalF_le _ a b

theorem matchTotal_self (a : List Char) : matchTotal a a = a.length := by
  unfold matchTotal
  rcases eq_or_ne a [] with rfl | ha
  · rfl
  · have hlen : 0 < a.length := List.length_pos.mpr ha
    have : a.length + a.length = (a.length + a.length - 1) + 1 := by omega
    rw [this, matchTotalF_self_pos]

theorem matchTotal_eq {a b : List Char}
    (h : 2 * matchTotal a b = a.length + b.length) : a = b :=
  matchTotalF_eq _ a b h

theorem matchTotal_nil_right (a : List Char) : matchTotal a [] = 0 := by
  unfold matchTotal
  cases h : a.length + [].length with
  | zero => rfl
  | succ f => simp [matchTotalF, bestMatch_nil_right]

/-- Ratio 1 between strings means equality. -/
theorem ratio_one_eq {x w : String}
    (h : 2 * matchTotal x.data w.data = x.data.length + w.data.length) : x = w := by
  have h2 := matchTotal_eq h
  cases x; cases w
  exact congrArg String.mk h2

/-! ### Lemmas about `getCloseMatch` -/

theorem cutoffOK_self (w : String) : cutoffOK (ratioPair w w) = true := by
  simp only [cutoffOK, ratioPair, matchTotal_self, decide_eq_true_eq]
  omega

/-- No candidate's ratio against `w` exceeds the perfect self-ratio. -/
theorem rGT_exact_false (x w : String) :
    rGT (ratioPair x w) (ratioPair w w) = false := by
  have hm := matchTotal_le x.data w.data
  simp only [ratioPair, matchTotal_self, rGT]
  by_cases h1 : x.data.length + w.data.length = 0
  · rw [if_pos h1, if_pos (by omega)]
  · rw [if_neg h1]
    by_cases h2 : w.data.length + w.data.length = 0
    · rw [if_pos h2, decide_eq_false_iff_not]
      omega
    · rw [if_neg h2, decide_eq_false_iff_not]
      have h3 : 2 * matchTotal x.data w.data ≤ x.data.length + w.data.length := by
        omega
      have key : matchTotal x.data w.data * (w.data.length + w.data.length) ≤
          w.data.length * (x.data.length + w.data.length) := by
        calc matchTotal x.data w.data * (w.data.length + w.data.length)
            = 2 * matchTotal x.data w.data * w.data.length := by ring
          _ ≤ (x.data.length + w.data.length) * w.data.length :=
              Nat.mul_le_mul_right _ h3
          _ = w.data.length * (x.data.length + w.data.length) := Nat.mul_comm _ _
      omega

/-- A candidate whose ratio is not beaten by the perfect self-ratio is `w`. -/
theorem rGT_one_false_eq (y w : String)
    (h : rGT (ratioPair w w) (ratioPair y w) = false) : y = w := by
  have hm := matchTotal_le y.data w.data
  simp only [ratioPair, matchTotal_self, rGT] at h
  by_cases h1 : w.data.length + w.data.length = 0
  · rw [if_pos h1] at h
    by_cases h2 : y.data.length + w.data.length = 0
    · exact ratio_one_eq (by omega)
    · rw [if_neg h2, decide_eq_false_iff_not] at h
      omega
  · rw [if_neg h1] at h
    by_cases h2 : y.data.length + w.data.length = 0
    · omega
    · rw [if_neg h2, decide_eq_false_iff_not] at h
      have hlw : 0 < w.data.length := by omega
      have key : (y.data.length + w.data.length) * w.data.length ≤
          2 * matchTotal y.data w.data * w.data.length := by
        have : w.data.length * (y.data.length + w.data.length) ≤
            matchTotal y.data w.data * (w.data.length + w.data.length) := by omega
        calc (y.data.length + w.data.length) * w.data.length
            = w.data.length * (y.data.length + w.data.length) := Nat.mul_comm _ _
          _ ≤ matchTotal y.data w.data * (w.data.length + w.data.length) := this
          _ = 2 * matchTotal y.data w.data * w.data.length := by ring
      have h4 : y.data.length + w.data.length ≤ 2 * matchTotal y.data w.data :=
        Nat.le_of_mul_le_mul_right key hlw
      exact ratio_one_eq (by omega)

/-- A candidate ratio equal to the perfect self-ratio forces equality. -/
theorem rEQ_pair_exact (x w : String)
    (h : rEQ (ratioPair x w) (ratioPair w w) = true) : x = w := by
  have hm := matchTotal_le x.data w.data
  simp only [ratioPair, matchTotal_self, rEQ] at h
  by_cases h1 : x.data.length + w.data.length = 0
  · exact ratio_one_eq (by omega)
  · rw [if_neg h1] at h
    by_cases h2 : w.data.length + w.data.length = 0
    · rw [if_pos h2, decide_eq_true_eq] at h
      omega
    · rw [if_neg h2, decide_eq_true_eq] at h
      have hlw : 0 < w.data.length := by omega
      have key : 2 * matchTotal x.data w.data * w.data.length =
          (x.data.length + w.data.length) * w.data.length := by
        calc 2 * matchTotal x.data w.data * w.data.length
            = matchTotal x.data w.data * (w.data.length + w.data.length) := by ring
          _ = w.data.length * (x.data.length + w.data.length) := h
          _ = (x.data.length + w.data.length) * w.data.length := Nat.mul_comm _ _
      exact ratio_one_eq (Nat.eq_of_mul_eq_mul_right hlw key)

theorem lexLt_irrefl : ∀ l : List Char, lexLt l l = false
  | [] => rfl
  | c :: cs => by simp [lexLt, lexLt_irrefl cs]

theorem pyStrGt_irrefl (x : String) : pyStrGt x x = false := lexLt_irrefl _

/-- Every scan step either keeps the accumulator or switches to the new
candidate. -/
theorem gcmStep_cases (w : String) (b : Option ((Nat × Nat) × String))
    (x : String) :
    gcmStep w b x = b ∨ gcmStep w b x = some (ratioPair x w, x) := by
  rcases b with _ | ⟨br, bx⟩ <;> simp only [gcmStep]
  · by_cases hc : cutoffOK (ratioPair x w) = true
    · rw [if_pos hc]; exact Or.inr rfl
    · rw [if_neg hc]; exact Or.inl rfl
  · by_cases hc : cutoffOK (ratioPair x w) = true
    · rw [if_pos hc]
      by_cases hg : (rGT (ratioPair x w) (br, bx).1 ||
          (rEQ (ratioPair x w) (br, bx).1 && pyStrGt x (br, bx).2)) = true
      · rw [if_pos hg]; exact Or.inr rfl
      · rw [if_neg hg]; exact Or.inl rfl
    · rw [if_neg hc]; exact Or.inl rfl

/-- Once the exact match is held, no later candidate displaces it. -/
theorem gcm_keep_step (w x : String) :
    gcmStep w (some (ratioPair w w, w)) x = some (ratioPair w w, w) := by
  simp only [gcmStep]
  by_cases hc : cutoffOK (ratioPair x w) = true
  · rw [if_pos hc]
    rw [show rGT (ratioPair x w) (ratioPair w w, w).1 = false from rGT_exact_false x w]
    by_cases he : rEQ (ratioPair x w) (ratioPair w w, w).1 = true
    · have hx := rEQ_pair_exact x w he
      subst hx
      split <;> rfl
    · simp only [Bool.false_or]
      rw [if_neg (by simp [he])]
  · rw [if_neg hc]

theorem foldl_gcm_keep (w : String) :
    ∀ l : List String, l.foldl (gcmStep w) (some (ratioPair w w, w)) =
      some (ratioPair w w, w)
  | [] => rfl
  | c :: cs => by rw [List.foldl_cons, gcm_keep_step]; exact foldl_gcm_keep w cs

/-- Scanning the exact match itself installs it, whatever (well-formed)
accumulator was held. -/
theorem gcm_exact_step (w : String) (b : Option ((Nat × Nat) × String))
    (hb : b = none ∨ ∃ y, b = some (ratioPair y w, y)) :
    gcmStep w b w = some (ratioPair w w, w) := by
  rcases hb with rfl | ⟨y, rfl⟩
  · simp only [gcmStep]
    rw [if_pos (cutoffOK_self w)]
  · simp only [gcmStep]
    rw [if_pos (cutoffOK_self w)]
    by_cases hg : rGT (ratioPair w w) (ratioPair y w, y).1 = true
    · simp [hg]
    · have hg' : rGT (ratioPair w w) (ratioPair y w) = false := by
        revert hg; cases rGT (ratioPair w w) (ratioPair y w) <;> simp
      have hy := rGT_one_false_eq y w hg'
      subst hy
      split <;> rfl

/-- The accumulator always holds a candidate's ratio pair. -/
theorem gcm_inv_step (w : String) (b : Option ((Nat × Nat) × String)) (x : String)
    (hb : b = none ∨ ∃ y, b = some (ratioPair y w, y)) :
    gcmStep w b x = none ∨ ∃ y, gcmStep w b x = some (ratioPair y w, y) := by
  rcases gcmStep_cases w b x with h | h
  · rw [h]; exact hb
  · rw [h]; exact Or.inr ⟨x, rfl⟩

theorem gcm_exact_fold (w : String) :
    ∀ (l : List String) (b : Option ((Nat × Nat) × String)),
      (b = none ∨ ∃ y, b = some (ratioPair y w, y)) → w ∈ l →
      l.foldl (gcmStep w) b = some (ratioPair w w, w)
  | [], _, _, hw => absurd hw (List.not_mem_nil _)
  | c :: cs, b, hb, hw => by
    rw [List.foldl_cons]
    rcases List.mem_cons.mp hw with rfl | hw'
    · rw [gcm_exact_step w b hb]
      exact foldl_gcm_keep w cs
    · exact gcm_exact_fold w cs _ (gcm_inv_step w b c hb) hw'

/-- `get_close_matches` finds an exact match: an expected name occurring
verbatim among the labels is returned (difflib's ratio is `1.0` only on
equality, and the tuple tie-break cannot displace it). -/
theorem gcm_exact {w : String} {l : List String} (h : w ∈ l) :
    getCloseMatch w l = some w := by
  unfold getCloseMatch
  rw [gcm_exact_fold w l none (Or.inl rfl) h]
  rfl

theorem gcm_fold_mem (w : String) :
    ∀ (l : List String) (b : Option ((Nat × Nat) × String))
      (p : (Nat × Nat) × String),
      l.foldl (gcmStep w) b = some p → b = some p ∨ p.2 ∈ l
  | [], _, _, h => Or.inl h
  | c :: cs, b, p, h => by
    rw [List.foldl_cons] at h
    rcases gcm_fold_mem w cs (gcmStep w b c) p h with h1 | h2
    · rcases gcmStep_cases w b c with hc | hc
      · rw [hc] at h1
        exact Or.inl h1
      · rw [hc] at h1
        right
        rw [show p.2 = c from by rw [← Option.some.inj h1]]
        exact List.mem_cons_self _ _
    · exact Or.inr (List.mem_cons_of_mem _ h2)

/-- `get_close_matches` only returns one of its candidates. -/
theorem gcm_mem {w x : String} {l : List String}
    (h : getCloseMatch w l = some x) : x ∈ l := by
  unfold getCloseMatch at h
  obtain ⟨p, hp, hx⟩ := Option.map_eq_some'.mp h
  rcases gcm_fold_mem w l none p hp with h0 | h2
  · simp at h0
  · rw [← hx]; exact h2

/-! ### Lemmas about the mapping dict and the fill loop -/

theorem lookupA_upsert_self : ∀ (m : List (String × String)) (k v : String),
    lookupA (upsert m k v) k = some v
  | [], k, v => by simp [upsert, lookupA]
  | p :: ps, k, v => by
    simp only [upsert]
    split
    · simp [lookupA]
    · rename_i h
      simp only [lookupA, if_neg h]
      exact lookupA_upsert_self ps k v

theorem lookupA_upsert_ne : ∀ (m : List (String × String)) (k v k' : String),
    k' ≠ k → lookupA (upsert m k v) k' = lookupA m k'
  | [], k, v, k', h => by
    simp only [upsert, lookupA]
    rw [if_neg (by exact fun hk => h hk.symm)]
  | p :: ps, k, v, k', h => by
    by_cases hp : p.1 = k
    · simp only [upsert, if_pos hp, lookupA]
      rw [if_neg (show ¬k = k' from fun hk => h hk.symm),
        if_neg (show ¬p.1 = k' from by rw [hp]; exact fun hk => h hk.symm)]
    · simp only [upsert, if_neg hp, lookupA]
      by_cases hp' : p.1 = k'
      · rw [if_pos hp', if_pos hp']
      · rw [if_neg hp', if_neg hp']
        exact lookupA_upsert_ne ps k v k' h

theorem lookupA_upsert_isSome {m : List (String × String)} {k : String}
    (k' v : String) (h : (lookupA m k).isSome) :
    (lookupA (upsert m k' v) k).isSome := by
  by_cases hk : k = k'
  · subst hk
    rw [lookupA_upsert_self]
    rfl
  · rw [lookupA_upsert_ne m k' v k hk]
    exact h

/-- Every binding of the mapping dict records a fuzzy-match result: the
value is an expected name whose best match among the labels is the key. -/
theorem buildMapping_fold_val (cols : List String) :
    ∀ (l : List String) (m : List (String × String)),
      (∀ k v, lookupA m k = some v → getCloseMatch v cols = some k) →
      ∀ k v,
        lookupA
          (l.foldl
            (fun m exp =>
              match getCloseMatch exp cols with
              | some k => upsert m k exp
              | none => m)
            m) k = some v →
        getCloseMatch v cols = some k
  | [], _, hm => hm
  | e :: es, m, hm => by
    rw [List.foldl_cons]
    apply buildMapping_fold_val cols es
    intro k v hkv
    cases hg : getCloseMatch e cols with
    | none =>
      simp only [hg] at hkv
      exact hm k v hkv
    | some key =>
      simp only [hg] at hkv
      by_cases hk : k = key
      · subst hk
        rw [lookupA_upsert_self] at hkv
        rw [← Option.some.inj hkv]
        exact hg
      · rw [lookupA_upsert_ne m key e k hk] at hkv
        exact hm k v hkv

theorem buildMapping_val {schema cols : List String} {k v : String}
    (h : lookupA (buildMapping schema cols) k = some v) :
    getCloseMatch v cols = some k :=
  buildMapping_fold_val cols schema [] (by intro k v h; simp [lookupA] at h) k v h

/-- Renaming through the mapping never conflates two distinct labels (the
heart of the columns-equal-schema invariant): an exact occurrence of a
schema name always maps to itself, and two labels cannot be sent to the
same name. -/
theorem applyMap_inj_on {schema cols : List String} :
    ∀ x ∈ cols, ∀ y ∈ cols,
      applyMap (buildMapping schema cols) x = applyMap (buildMapping schema cols) y →
      x = y := by
  intro x hx y hy he
  unfold applyMap at he
  cases h1 : lookupA (buildMapping schema cols) x with
  | none =>
    cases h2 : lookupA (buildMapping schema cols) y with
    | none => rw [h1, h2] at he; simpa using he
    | some w2 =>
      rw [h1, h2] at he
      simp only [Option.getD_some, Option.getD_none] at he
      have hv2 := buildMapping_val h2
      rw [← he, gcm_exact hx] at hv2
      exact Option.some.inj hv2
  | some w1 =>
    cases h2 : lookupA (buildMapping schema cols) y with
    | none =>
      rw [h1, h2] at he
      simp only [Option.getD_some, Option.getD_none] at he
      have hv1 := buildMapping_val h1
      rw [he, gcm_exact hy] at hv1
      exact (Option.some.inj hv1).symm
    | some w2 =>
      rw [h1, h2] at he
      simp only [Option.getD_some] at he
      have hv1 := buildMapping_val h1
      have hv2 := buildMapping_val h2
      rw [he, hv2] at hv1
      exact (Option.some.inj hv1).symm

theorem renamed_nodup {schema cols : List String} (h : cols.Nodup) :
    (cols.map (applyMap (buildMapping schema cols))).Nodup :=
  List.Nodup.map_on applyMap_inj_on h

/-- Multiplicity of a name after the null-fill loop. -/
theorem fill_fst_count :
    ∀ (sch : List String) (st : List String × List (List Cell)) (n : String),
      ((fillMissing sch st).1).count n =
        if n ∈ st.1 then st.1.count n else if n ∈ sch then 1 else 0
  | [], st, n => by
    simp only [fillMissing, List.foldl_nil, List.not_mem_nil, if_false]
    split
    · rfl
    · rename_i hn
      simp [List.count_eq_zero.mpr hn]
  | s :: ss, st, n => by
    simp only [fillMissing, List.foldl_cons]
    by_cases hs : s ∈ st.1
    · rw [if_pos hs]
      have ih := fill_fst_count ss st n
      simp only [fillMissing] at ih
      rw [ih]
      by_cases hn : n ∈ st.1
      · rw [if_pos hn, if_pos hn]
      · rw [if_neg hn, if_neg hn]
        have hns : n ≠ s := fun h => hn (h ▸ hs)
        simp [List.mem_cons, hns]
    · rw [if_neg hs]
      have ih := fill_fst_count ss (st.1 ++ [s], st.2.map (· ++ [Cell.na "<NA>"])) n
      simp only [fillMissing] at ih
      rw [ih]
      by_cases hn : n = s
      · subst hn
        rw [if_pos (by simp), if_neg hs, if_pos (List.mem_cons_self _ _)]
        rw [List.count_append]
        simp [List.count_eq_zero.mpr hs, List.count_cons]
      · by_cases hn1 : n ∈ st.1
        · rw [if_pos (List.mem_append_left _ hn1), if_pos hn1, List.count_append]
          simp [List.count_cons, hn]
        · rw [if_neg (by simp [hn1, hn]), if_neg hn1]
          simp [List.mem_cons, hn]

/-- If every schema name is already a column, the fill loop is the
identity. -/
theorem fill_id :
    ∀ (sch : List String) (st : List String × List (List Cell)),
      (∀ n ∈ sch, n ∈ st.1) → fillMissing sch st = st
  | [], st, _ => rfl
  | s :: ss, st, h => by
    simp only [fillMissing, List.foldl_cons, if_pos (h s (List.mem_cons_self _ _))]
    exact fill_id ss st fun n hn => h n (List.mem_cons_of_mem _ hn)

/-- If no schema name is a column yet, the fill loop appends all of them and
pads every row with that many sentinels. -/
theorem fill_all_new :
    ∀ (sch : List String) (st : List String × List (List Cell)),
      sch.Nodup → (∀ n ∈ sch, n ∉ st.1) →
      fillMissing sch st =
        (st.1 ++ sch, st.2.map (· ++ List.replicate sch.length (Cell.na "<NA>")))
  | [], st, _, _ => by cases st; simp [fillMissing]
  | s :: ss, st, hnd, h => by
    simp only [fillMissing, List.foldl_cons,
      if_neg (h s (List.mem_cons_self _ _))]
    have ih := fill_all_new ss (st.1 ++ [s], st.2.map (· ++ [Cell.na "<NA>"]))
      (List.Nodup.of_cons hnd)
      (by
        intro n hn
        simp only [List.mem_append, List.mem_singleton]
        rintro (h1 | h2)
        · exact h n (List.mem_cons_of_mem _ hn) h1
        · exact (List.nodup_cons.mp hnd).1 (h2 ▸ hn))
    simp only [fillMissing] at ih
    rw [ih]
    refine Prod.ext ?_ ?_
    · simp
    · simp only [List.map_map, List.length_cons]
      apply List.map_congr_left
      intro r _
      simp [Function.comp, List.replicate_succ, List.append_assoc]

/-- A name occurring exactly once is all that its filter finds. -/
theorem count_one_filter :
    ∀ (l : List String) (n : String), l.count n = 1 → l.filter (· = n) = [n]
  | [], n, h => by simp at h
  | c :: cs, n, h => by
    rw [List.count_cons] at h
    by_cases hc : c = n
    · subst hc
      have h0 : cs.count c = 0 := by simpa using h
      have : cs.filter (· = c) = [] := by
        rw [List.filter_eq_nil_iff]
        intro a ha
        have := List.count_eq_zero.mp h0
        simp only [decide_eq_true_eq]
        exact fun h => this (h ▸ ha)
      simp [List.filter_cons, this]
    · have h' : cs.count n = 1 := by simpa [hc] using h
      simp only [List.filter_cons, decide_eq_true_eq, if_neg hc]
      exact count_one_filter cs n h'

theorem flatMap_singleton {α : Type _} :
    ∀ (l : List α) (f : α → List α), (∀ n ∈ l, f n = [n]) → l.flatMap f = l
  | [], _, _ => rfl
  | c :: cs, f, h => by
    rw [List.flatMap_cons, h c (List.mem_cons_self _ _),
      flatMap_singleton cs f fun n hn => h n (List.mem_cons_of_mem _ hn)]
    rfl

/-- Core columns invariant: whenever the normalised labels are pairwise
distinct, normalise/rename/fill/project produces exactly the schema
columns. -/
theorem postProcess_cols {schema : List String} {F : Frame}
    (h : (F.cols.map normLabel).Nodup) : (postProcess schema F).cols = schema := by
  simp only [postProcess, projFrame]
  apply flatMap_singleton
  intro n hn
  apply count_one_filter
  rw [fill_fst_count]
  set renamed := (F.cols.map normLabel).map
    (applyMap (buildMapping schema (F.cols.map normLabel))) with hr
  by_cases hmem : n ∈ renamed
  · rw [if_pos hmem]
    exact List.count_eq_one_of_mem (renamed_nodup h) hmem
  · rw [if_neg hmem, if_pos hn]

/-! ### Lemmas about building and aligning -/

theorem foldl_max_const {L : Nat} :
    ∀ rs : List (List RawCell), (∀ r ∈ rs, r.length = L) →
      rs.foldl (fun m r => max m r.length) L = L
  | [], _ => rfl
  | r :: rs, h => by
    rw [List.foldl_cons, h r (List.mem_cons_self _ _), Nat.max_self]
    exact foldl_max_const rs fun r hr => h r (List.mem_cons_of_mem _ hr)

theorem maxWidth_uniform {L : Nat} {data : List (List RawCell)} (hne : data ≠ [])
    (h : ∀ r ∈ data, r.length = L) : maxWidth data = L := by
  obtain ⟨r, rs, rfl⟩ := List.exists_cons_of_ne_nil hne
  unfold maxWidth
  rw [List.foldl_cons, h r (List.mem_cons_self _ _), Nat.max_eq_right (Nat.zero_le _)]
  exact foldl_max_const rs fun r hr => h r (List.mem_cons_of_mem _ hr)

theorem range_pad : ∀ r : List RawCell,
    (List.range r.length).map (padCell r) = r.map rawToCell
  | [] => rfl
  | x :: xs => by
    rw [List.length_cons, List.range_succ_eq_map, List.map_cons, List.map_map]
    have h1 : padCell (x :: xs) 0 = rawToCell x := rfl
    have h2 : (padCell (x :: xs)) ∘ Nat.succ = padCell xs := by
      funext j; rfl
    rw [h1, h2, range_pad xs, List.map_cons]

/-- A candidate whose data rows all match the header width builds without
padding, the rows carried over verbatim. -/
theorem dfBuild_uniform {header : List RawCell} {data : List (List RawCell)}
    (h : ∀ r ∈ data, r.length = header.length) :
    dfBuild header data =
      some ⟨header.map pyStrCell, data.map (List.map rawToCell)⟩ := by
  rcases eq_or_ne data [] with rfl | hne
  · rfl
  · unfold dfBuild
    rw [if_neg hne, if_pos (maxWidth_uniform hne h)]
    congr 1
    refine congrArg _ ?_
    apply List.map_congr_left
    intro r hr
    rw [← range_pad r, h r hr]

/-- The mapping built from labels that are exactly the schema is
sub-diagonal: every lookup yields nothing or the key itself. -/
theorem buildMapping_self_P (schema : List String) :
    ∀ (l : List String) (m : List (String × String)),
      (∀ e ∈ l, e ∈ schema) →
      (∀ c, lookupA m c = none ∨ lookupA m c = some c) →
      ∀ c,
        lookupA
          (l.foldl
            (fun m exp =>
              match getCloseMatch exp schema with
              | some k => upsert m k exp
              | none => m)
            m) c = none ∨
        lookupA
          (l.foldl
            (fun m exp =>
              match getCloseMatch exp schema with
              | some k => upsert m k exp
              | none => m)
            m) c = some c
  | [], _, _, hm => hm
  | e :: es, m, hl, hm => by
    rw [List.foldl_cons]
    apply buildMapping_self_P schema es
    · exact fun x hx => hl x (List.mem_cons_of_mem _ hx)
    · intro c
      rw [gcm_exact (hl e (List.mem_cons_self _ _))]
      by_cases hc : c = e
      · subst hc
        rw [lookupA_upsert_self]
        exact Or.inr rfl
      · rw [lookupA_upsert_ne m e e c hc]
        exact hm c

/-- Renaming built over labels equal to the schema is the identity. -/
theorem applyMap_buildMapping_self (schema : List String) (c : String) :
    applyMap (buildMapping schema schema) c = c := by
  have h := buildMapping_self_P schema schema [] (fun _ h => h)
    (fun c => Or.inl rfl) c
  unfold applyMap buildMapping
  rcases h with h | h <;> rw [h] <;> rfl

theorem flatMap_eq_map {α β : Type _} (g : α → β) :
    ∀ (l : List α) (f : α → List β), (∀ a ∈ l, f a = [g a]) → l.flatMap f = l.map g
  | [], _, _ => rfl
  | c :: cs, f, h => by
    rw [List.flatMap_cons, h c (List.mem_cons_self _ _), List.map_cons,
      flatMap_eq_map g cs f fun a ha => h a (List.mem_cons_of_mem _ ha)]
    rfl

theorem flatMap_filter_congr {β : Type _} (f g : String → List β) :
    ∀ l : List String, (∀ a ∈ l, f a = g a) → l.flatMap f = l.flatMap g
  | [], _ => rfl
  | c :: cs, h => by
    rw [List.flatMap_cons, List.flatMap_cons, h c (List.mem_cons_self _ _),
      flatMap_filter_congr f g cs fun a ha => h a (List.mem_cons_of_mem _ ha)]

/-- Projecting a frame whose columns are exactly the (duplicate-free) schema
leaves each row unchanged. -/
theorem projRow_id :
    ∀ (schema : List String) (r : List Cell), schema.Nodup →
      r.length = schema.length → projRow schema schema r = r
  | [], r, _, hlen => by
    rw [List.length_nil] at hlen
    rw [List.length_eq_zero.mp hlen]
    rfl
  | s :: ss, r, hnd, hlen => by
    obtain ⟨x, xs, rfl⟩ := List.exists_cons_of_ne_nil
      (show r ≠ [] from by intro h; rw [h] at hlen; simp at hlen)
    have hsss : s ∉ ss := (List.nodup_cons.mp hnd).1
    simp only [projRow, List.zip_cons_cons, List.flatMap_cons]
    have hhead : (((s, x) :: ss.zip xs).filter (fun p => p.1 = s)).map Prod.snd
        = [x] := by
      rw [List.filter_cons, if_pos (by simp)]
      have hnil : (ss.zip xs).filter (fun p => p.1 = s) = [] := by
        rw [List.filter_eq_nil_iff]
        intro p hp
        have := (List.of_mem_zip hp).1
        simp only [decide_eq_true_eq]
        exact fun h => hsss (h ▸ this)
      rw [hnil]
      rfl
    rw [hhead]
    have htail :
        ss.flatMap (fun nm => (((s, x) :: ss.zip xs).filter
            (fun p => p.1 = nm)).map Prod.snd) =
          ss.flatMap (fun nm => ((ss.zip xs).filter
            (fun p => p.1 = nm)).map Prod.snd) := by
      apply flatMap_filter_congr
      intro nm hnm
      rw [List.filter_cons, if_neg (by
        simp only [decide_eq_true_eq]
        exact fun h => hsss (h ▸ hnm))]
    rw [htail]
    have ihlen : xs.length = ss.length := by
      simp only [List.length_cons] at hlen
      omega
    have ih := projRow_id ss xs (List.Nodup.of_cons hnd) ihlen
    simp only [projRow] at ih
    rw [ih]
    rfl

/-- On a frame whose normalised labels are exactly the schema and whose rows
fit the schema width, post-processing is the identity (no spurious rename,
no fill, projection in place). -/
theorem postProcess_id {schema : List String} {F : Frame} (hnd : schema.Nodup)
    (hcols : F.cols.map normLabel = schema)
    (hlen : ∀ r ∈ F.rows, r.length = schema.length) :
    postProcess schema F = ⟨schema, F.rows⟩ := by
  simp only [postProcess, hcols]
  have hren : schema.map (applyMap (buildMapping schema schema)) = schema := by
    have h1 := List.map_congr_left
      (fun c (_ : c ∈ schema) => applyMap_buildMapping_self schema c)
    rw [h1, List.map_id']
  rw [hren, fill_id schema _ (fun n hn => hn)]
  simp only [projFrame]
  refine congrArg₂ Frame.mk ?_ ?_
  · apply flatMap_singleton
    intro n hn
    exact count_one_filter _ _ (List.count_eq_one_of_mem hnd hn)
  · have h2 := List.map_congr_left
      (fun r (hr : r ∈ F.rows) => projRow_id schema r hnd (hlen r hr))
    rw [h2, List.map_id']

theorem zip_replicate_self {c : Cell} :
    ∀ l : List String, l.zip (List.replicate l.length c) = l.map (fun s => (s, c))
  | [] => rfl
  | s :: ss => by
    rw [List.length_cons, List.replicate_succ, List.zip_cons_cons, List.map_cons,
      zip_replicate_self ss]

theorem buildMapping_none {cols : List String} :
    ∀ (l : List String) (m : List (String × String)),
      (∀ e ∈ l, getCloseMatch e cols = none) →
      l.foldl
        (fun m exp =>
          match getCloseMatch exp cols with
          | some k => upsert m k exp
          | none => m)
        m = m
  | [], _, _ => rfl
  | e :: es, m, h => by
    rw [List.foldl_cons, h e (List.mem_cons_self _ _)]
    exact buildMapping_none es m fun x hx => h x (List.mem_cons_of_mem _ hx)

/-- Post-processing the degraded single-column frame when nothing matches
`"raw"`: every schema column is created null-filled, and the joined text is
projected away — each row becomes a row of sentinels. -/
theorem postProcess_raw {schema : List String} (hnd : schema.Nodup)
    (hm : ∀ n ∈ schema, getCloseMatch n ["raw"] = none)
    (rows : List (List Cell)) (hrow : ∀ r ∈ rows, r.length = 1) :
    postProcess schema ⟨["raw"], rows⟩ =
      ⟨schema, rows.map (fun _ => List.replicate schema.length (Cell.na "<NA>"))⟩ := by
  have hraw : ∀ n ∈ schema, n ≠ "raw" := by
    intro n hn h
    have h1 := hm n hn
    rw [h, gcm_exact (List.mem_singleton_self _)] at h1
    exact Option.noConfusion h1
  have hnorm : (["raw"] : List String).map normLabel = ["raw"] := rfl
  simp only [postProcess, hnorm]
  have hmap : buildMapping schema ["raw"] = [] := by
    unfold buildMapping
    exact buildMapping_none schema [] hm
  rw [hmap]
  have hren : (["raw"] : List String).map (applyMap []) = ["raw"] := rfl
  rw [hren]
  rw [fill_all_new schema (["raw"], rows) hnd
    (by
      intro n hn
      simp only [List.mem_singleton]
      exact hraw n hn)]
  simp only [projFrame]
  refine congrArg₂ Frame.mk ?_ ?_
  · apply flatMap_singleton
    intro n hn
    apply count_one_filter
    rw [List.singleton_append, List.count_cons, List.count_eq_one_of_mem hnd hn]
    simp [hraw n hn, Ne.symm (hraw n hn)]
  · rw [List.map_map]
    apply List.map_congr_left
    intro r hr
    obtain ⟨x, hx⟩ : ∃ x, r = [x] := by
      have h1 := hrow r hr
      cases r with
      | nil => simp at h1
      | cons a as =>
        have h2 : as = [] := by
          rw [← List.length_eq_zero]
          simp only [List.length_cons] at h1
          omega
        exact ⟨a, by rw [h2]⟩
    subst hx
    simp only [Function.comp_apply, projRow, List.singleton_append,
      List.zip_cons_cons, zip_replicate_self]
    rw [show List.replicate schema.length (Cell.na "<NA>") =
      schema.map (fun _ => Cell.na "<NA>") from (List.map_const' _ _).symm]
    apply flatMap_eq_map (fun _ => Cell.na "<NA>")
    intro nm hnm
    rw [List.filter_cons, if_neg (by
      simp only [decide_eq_true_eq]
      exact fun h => hraw nm hnm h.symm)]
    have hfm : (schema.map (fun s => (s, Cell.na "<NA>"))).filter
        (fun p => p.1 = nm) = [(nm, Cell.na "<NA>")] := by
      rw [List.filter_map]
      have : schema.filter ((fun p : String × Cell => decide (p.1 = nm)) ∘
          (fun s => (s, Cell.na "<NA>"))) = schema.filter (· = nm) := rfl
      rw [this, count_one_filter _ _ (List.count_eq_one_of_mem hnd hnm)]
      rfl
    rw [hfm]
    rfl

/-- Width mismatch with all cells present: the fallback frame is the joined
rows including the header. -/
theorem alignCandidate_fallback {schema : List String} {header : List RawCell}
    {data : List (List RawCell)}
    (hp : (header :: data).all (fun r => r.all (fun c => c.isSome)) = true)
    (hne : data ≠ []) (hw : maxWidth data ≠ header.length) :
    alignCandidate schema (header :: data) =
      some (postProcess schema
        ⟨["raw"], (header :: data).map (fun r => [joinRow r])⟩) := by
  simp only [alignCandidate, dfBuild, if_neg hne, if_neg hw, fallbackFrame,
    if_pos hp, Option.map_some']

/-! ### Small helpers for the claim theorems -/

theorem dfBuild_cols {header : List RawCell} {data : List (List RawCell)}
    {F0 : Frame} (h : dfBuild header data = some F0) :
    F0.cols = header.map pyStrCell := by
  unfold dfBuild at h
  split at h
  · rw [← Option.some.inj h]
  · split at h
    · rw [← Option.some.inj h]
    · exact Option.noConfusion h

theorem fallbackFrame_cols {t : RawTable} {F0 : Frame}
    (h : fallbackFrame t = some F0) : F0.cols = ["raw"] := by
  unfold fallbackFrame at h
  split at h
  · rw [← Option.some.inj h]
  · exact Option.noConfusion h

theorem loop_found :
    ∀ (l : List Nat) (p : Nat → Bool) (k : Nat), k ∈ l → p k = true →
      ∃ k', (runLoopC p l).1 = some k'
  | [], _, _, hk, _ => absurd hk (List.not_mem_nil _)
  | a :: rest, p, k, hk, hpk => by
    by_cases ha : p a = true
    · exact ⟨a, by simp [runLoopC, ha]⟩
    · rcases List.mem_cons.mp hk with rfl | hk'
      · exact absurd hpk ha
      · obtain ⟨k', hk'⟩ := loop_found rest p k hk' hpk
        exact ⟨k', by simp [runLoopC, ha, hk']⟩

theorem loop_all_fail :
    ∀ (l : List Nat) (p : Nat → Bool), (∀ j ∈ l, p j = false) →
      runLoopC p l = (none, l.length)
  | [], _, _ => rfl
  | a :: rest, p, h => by
    have ha : p a = false := h a (List.mem_cons_self _ _)
    simp only [runLoopC, ha, Bool.false_eq_true, if_false,
      loop_all_fail rest p fun j hj => h j (List.mem_cons_of_mem _ hj),
      List.length_cons]

/-! ### Claim C1 -/

/-- C1 fails as stated: a RawTable with a duplicated header label ("a"
twice) yields an aligned table whose columns are `["a", "a"]`, not the
schema `["a"]` — `df[EXPECTED_COLUMNS]` selects every occurrence of a
duplicated label. -/
theorem c1_counterexample :
    alignCandidate ["a"] [[some "a", some "a"], [some "1", some "2"]] =
      some ⟨["a", "a"], [[Cell.str "1", Cell.str "2"]]⟩ ∧
    (⟨["a", "a"], [[Cell.str "1", Cell.str "2"]]⟩ : Frame).cols ≠ ["a"] := by
  decide

/-- C1 (amended): for every Schema and every RawTable candidate whose
normalised header labels are pairwise distinct, the aligned table produced
by the align step has columns exactly equal to Schema, in the same order
and with the same membership: matched columns are renamed to the Schema
name, unmatched Schema columns are created null-filled, and extra columns
are dropped by the final projection. -/
theorem c1_align_columns_schema {schema : List String} {t : RawTable}
    {F : Frame}
    (hnd : (((t.headD []).map pyStrCell).map normLabel).Nodup)
    (ha : alignCandidate schema t = some F) :
    F.cols = schema := by
  cases t with
  | nil => exact absurd ha (by simp [alignCandidate])
  | cons header data =>
    simp only [alignCandidate] at ha
    cases hb : dfBuild header data with
    | some F0 =>
      rw [hb] at ha
      rw [← Option.some.inj ha]
      apply postProcess_cols
      rw [dfBuild_cols hb]
      simpa using hnd
    | none =>
      rw [hb] at ha
      cases hf : fallbackFrame (header :: data) with
      | none => rw [hf] at ha; exact Option.noConfusion ha
      | some Fb =>
        rw [hf, Option.map_some'] at ha
        rw [← Option.some.inj ha]
        apply postProcess_cols
        rw [fallbackFrame_cols hf]
        decide

theorem c1_align_columns_schema_witness :
    ((((([[some "Date"], [some "x"]] : RawTable).headD []).map pyStrCell).map
        normLabel).Nodup) ∧
    alignCandidate ["a"] [[some "Date"], [some "x"]] =
      some ⟨["a"], [[Cell.na "<NA>"]]⟩ ∧
    (⟨["a"], [[Cell.na "<NA>"]]⟩ : Frame).cols = ["a"] :=
  ⟨by decide, by decide,
    @c1_align_columns_schema ["a"] [[some "Date"], [some "x"]]
      ⟨["a"], [[Cell.na "<NA>"]]⟩ (by decide) (by decide)⟩

/-! ### Claim C2 -/

/-- C2 fails as stated: the cleanup loop's `astype(str)` does not leave a
null-sentinel cell as-is — it replaces it by the sentinel's string
rendering (`"<NA>"` for `pd.NA`). -/
theorem c2_counterexample :
    cleanupFrame ⟨["a"], [[Cell.na "<NA>"]]⟩ = ⟨["a"], [[Cell.str "<NA>"]]⟩ ∧
    (Cell.str "<NA>" ≠ Cell.na "<NA>") := by
  decide

/-- C2 (amended): during final cleanup of the assembled table, a
string-typed cell is changed only by trimming its leading/trailing
whitespace, while a cell holding the null sentinel is coerced to the
sentinel's string rendering by the `astype(str)` cast (then trimmed, a
no-op); columns are untouched. -/
theorem c2_cleanup_characterization :
    (∀ (F : Frame) (i j : Nat) (s : String),
      getCell F i j = some (Cell.str s) →
      getCell (cleanupFrame F) i j = some (Cell.str (pyStrip s))) ∧
    (∀ (F : Frame) (i j : Nat) (rep : String),
      getCell F i j = some (Cell.na rep) →
      getCell (cleanupFrame F) i j = some (Cell.str (pyStrip rep))) ∧
    (∀ F : Frame, (cleanupFrame F).cols = F.cols) := by
  refine ⟨?_, ?_, fun F => rfl⟩ <;>
  · intro F i j v h
    unfold getCell cleanupFrame at *
    cases hr : F.rows[i]? with
    | none => rw [hr] at h; simp at h
    | some r =>
      rw [hr, Option.some_bind] at h
      simp only
      rw [List.getElem?_map, hr, Option.map_some', Option.some_bind,
        List.getElem?_map, h, Option.map_some']
      rfl

theorem c2_cleanup_characterization_witness :
    getCell (cleanupFrame ⟨["a", "b"], [[Cell.str " x ", Cell.na "<NA>"]]⟩) 0 0 =
      some (Cell.str (pyStrip " x ")) ∧
    getCell (cleanupFrame ⟨["a", "b"], [[Cell.str " x ", Cell.na "<NA>"]]⟩) 0 1 =
      some (Cell.str (pyStrip "<NA>")) :=
  ⟨c2_cleanup_characterization.1 ⟨["a", "b"], [[Cell.str " x ", Cell.na "<NA>"]]⟩
      0 0 " x " (by decide),
    c2_cleanup_characterization.2.1 ⟨["a", "b"], [[Cell.str " x ", Cell.na "<NA>"]]⟩
      0 1 "<NA>" (by decide)⟩

/-! ### Claim C5 -/

/-- C5: for every page the extractor emits at most one RawTable — a truthy
structured table verbatim; otherwise the non-empty text lines, each split
into tokens at runs of two-or-more whitespace characters or a tab; a page
with neither yields nothing (and no error — the embedding is total). -/
theorem c5_extractor_per_page :
    (∀ (p : Page) (t : List (List RawCell)), p.table = some t → t ≠ [] →
      extractPage p = some t) ∧
    (∀ (p : Page) (s : String), (p.table = none ∨ p.table = some []) →
      p.text = some s → pageLines s ≠ [] →
      extractPage p = some ((pageLines s).map tokenizeLine)) ∧
    (∀ p : Page, (p.table = none ∨ p.table = some []) →
      (p.text = none ∨ ∀ s, p.text = some s → pageLines s = []) →
      extractPage p = none) ∧
    (∀ doc : List Page, (extractTables doc).length ≤ doc.length) := by
  refine ⟨?_, ?_, ?_, ?_⟩
  · intro p t hp ht
    simp [extractPage, hp, ht]
  · intro p s hp hs hl
    rcases hp with hp | hp <;>
      simp [extractPage, hp, hs, textRows, hl]
  · intro p hp ht
    rcases hp with hp | hp <;>
    · rcases ht with ht | ht
      · simp [extractPage, hp, ht, textRows]
      · cases hs : p.text with
        | none => simp [extractPage, hp, hs, textRows]
        | some s => simp [extractPage, hp, hs, textRows, ht s hs]
  · intro doc
    exact List.length_filterMap_le _ _

theorem c5_extractor_per_page_witness :
    extractPage ⟨some [[some "x"]], none⟩ = some [[some "x"]] ∧
    extractPage ⟨none, some "Tx  10"⟩ =
      some ((pageLines "Tx  10").map tokenizeLine) ∧
    extractPage ⟨some [], none⟩ = none :=
  ⟨c5_extractor_per_page.1 ⟨some [[some "x"]], none⟩ [[some "x"]] rfl (by decide),
    c5_extractor_per_page.2.1 ⟨none, some "Tx  10"⟩ "Tx  10" (Or.inl rfl) rfl
      (by decide),
    c5_extractor_per_page.2.2.1 ⟨some [], none⟩ (Or.inr rfl) (Or.inl rfl)⟩

/-! ### Claim C6 -/

/-- C6 fails as stated: a RawTable whose data row is shorter than the
header (widths 1 vs 2) and contains an absent (`None`) cell makes the
fallback's `" ".join` raise `TypeError` inside the `except` handler — the
align step does raise outward (modelled as `none`). -/
theorem c6_counterexample :
    ([none] : List RawCell).length ≠ ([some "a", some "b"] : List RawCell).length ∧
    alignCandidate ["a", "b"] [[some "a", some "b"], [none]] = none := by
  decide

/-- C6 (amended): for every RawTable all of whose cells are present
(non-`None`) strings and whose maximal data-row width differs from the
header width, the align step never raises: the mismatch is recovered by
falling back to the single-column table of space-joined rows, and the
result still has columns exactly equal to Schema (null-filled whenever
`"raw"` matches no schema name).  Rows merely shorter than the maximal
width do not trigger the fallback — pandas pads them with the sentinel. -/
theorem c6_fallback_safe {schema : List String} {header : List RawCell}
    {data : List (List RawCell)}
    (hp : (header :: data).all (fun r => r.all (fun c => c.isSome)) = true)
    (hne : data ≠ []) (hw : maxWidth data ≠ header.length) :
    alignCandidate schema (header :: data) =
      some (postProcess schema
        ⟨["raw"], (header :: data).map (fun r => [joinRow r])⟩) ∧
    ∀ F, alignCandidate schema (header :: data) = some F → F.cols = schema := by
  refine ⟨alignCandidate_fallback hp hne hw, ?_⟩
  intro F hF
  rw [alignCandidate_fallback hp hne hw] at hF
  rw [← Option.some.inj hF]
  apply postProcess_cols
  show (List.map normLabel ["raw"]).Nodup
  decide

theorem c6_fallback_safe_witness :
    alignCandidate ["x", "y"] [[some "a", some "b"], [some "1"]] =
      some (postProcess ["x", "y"]
        ⟨["raw"], ([[some "a", some "b"], [some "1"]] : RawTable).map
          (fun r => [joinRow r])⟩) ∧
    ∀ F, alignCandidate ["x", "y"] [[some "a", some "b"], [some "1"]] = some F →
      F.cols = ["x", "y"] :=
  @c6_fallback_safe ["x", "y"] [some "a", some "b"] [[some "1"]]
    (by decide) (by decide) (by decide)

/-! ### Claim C3 -/

/-- C3: the orchestrator performs at most `max_attempts = 3`
synthesize/execute/compare cycles: it stops at the first passing attempt
after exactly that many cycles, and when every attempt fails it ends (the
ABORTED exit) after exactly 3 cycles — never a fourth. -/
theorem c3_retry_bound :
    (∀ p : Nat → Bool, (runLoopC p attemptList).2 ≤ 3) ∧
    (∀ p : Nat → Bool, ∀ k ∈ attemptList, p k = true →
      (∀ j ∈ attemptList, j < k → p j = false) →
      runLoopC p attemptList = (some k, k)) ∧
    (∀ p : Nat → Bool, (∀ j ∈ attemptList, p j = false) →
      runLoopC p attemptList = (none, 3)) := by
  have hl : attemptList = [1, 2, 3] := rfl
  refine ⟨?_, ?_, ?_⟩
  · intro p
    rw [hl]
    by_cases h1 : p 1 <;> by_cases h2 : p 2 <;> by_cases h3 : p 3 <;>
      simp [runLoopC, h1, h2, h3]
  · intro p k hk hpk hprev
    rw [hl] at hk ⊢
    rw [hl] at hprev
    have hk3 : k = 1 ∨ k = 2 ∨ k = 3 := by
      simpa using hk
    rcases hk3 with rfl | rfl | rfl
    · simp [runLoopC, hpk]
    · have h1 : p 1 = false := hprev 1 (by decide) (by decide)
      simp [runLoopC, h1, hpk]
    · have h1 : p 1 = false := hprev 1 (by decide) (by decide)
      have h2 : p 2 = false := hprev 2 (by decide) (by decide)
      simp [runLoopC, h1, h2, hpk]
  · intro p hall
    rw [hl]
    have h1 : p 1 = false := hall 1 (by decide)
    have h2 : p 2 = false := hall 2 (by decide)
    have h3 : p 3 = false := hall 3 (by decide)
    simp [runLoopC, h1, h2, h3]

theorem c3_retry_bound_witness :
    runLoopC (fun n => decide (n = 2)) attemptList = (some 2, 2) ∧
    runLoopC (fun _ => false) attemptList = (none, 3) :=
  ⟨c3_retry_bound.2.1 (fun n => decide (n = 2)) 2 (by decide) (by decide)
      (by decide),
    c3_retry_bound.2.2 (fun _ => false) (by decide)⟩

/-! ### Claim C4 -/

/-- C4: the exit code is 2 — with zero attempts, surfaced before the loop —
whenever the data folder, the sample document or the golden table is
missing; 0 when some attempt within the bound passes; and 1, after exactly
3 cycles, when every attempt fails. -/
theorem c4_exit_codes :
    (∀ e : Env,
      (e.folderExists = false ∨ e.pdfExists = false ∨ e.csvExists = false) →
      agentMain e = (2, 0)) ∧
    (∀ e : Env, e.folderExists = true → e.pdfExists = true →
      e.csvExists = true → ∀ k ∈ attemptList, e.pass_ k = true →
      (agentMain e).1 = 0) ∧
    (∀ e : Env, e.folderExists = true → e.pdfExists = true →
      e.csvExists = true → (∀ j ∈ attemptList, e.pass_ j = false) →
      agentMain e = (1, 3)) := by
  refine ⟨?_, ?_, ?_⟩
  · intro e h
    unfold agentMain
    rcases h with h | h | h
    · rw [if_pos h]
    · by_cases hf : e.folderExists = false
      · rw [if_pos hf]
      · rw [if_neg hf, if_pos (by simp [h])]
    · by_cases hf : e.folderExists = false
      · rw [if_pos hf]
      · rw [if_neg hf, if_pos (by simp [h])]
  · intro e hf hp hc k hk hpk
    unfold agentMain
    rw [if_neg (by simp [hf]), if_neg (by simp [hp, hc])]
    obtain ⟨k', hk'⟩ := loop_found attemptList e.pass_ k hk hpk
    rcases hr : runLoopC e.pass_ attemptList with ⟨o, cnt⟩
    rw [hr] at hk'
    simp only at hk'
    rw [hk']
  · intro e hf hp hc hall
    unfold agentMain
    rw [if_neg (by simp [hf]), if_neg (by simp [hp, hc]),
      loop_all_fail attemptList e.pass_ hall]
    rfl

theorem c4_exit_codes_witness :
    agentMain ⟨false, true, true, fun _ => true⟩ = (2, 0) ∧
    (agentMain ⟨true, true, true, fun n => decide (n = 1)⟩).1 = 0 ∧
    agentMain ⟨true, true, true, fun _ => false⟩ = (1, 3) :=
  ⟨c4_exit_codes.1 ⟨false, true, true, fun _ => true⟩ (Or.inl rfl),
    c4_exit_codes.2.1 ⟨true, true, true, fun n => decide (n = 1)⟩ rfl rfl rfl 1
      (by decide) (by decide),
    c4_exit_codes.2.2 ⟨true, true, true, fun _ => false⟩ rfl rfl rfl (by decide)⟩

/-! ### Claim C7 -/

/-- C7: assembling concatenates the aligned tables preserving extraction
order — the rows of `assemble [A, B]` are the rows of `A` followed by the
rows of `B` (each cell then passing through the cleanup cast) — and an
empty candidate list yields the empty table whose columns are exactly the
(non-empty) Schema, never a zero-column table. -/
theorem c7_assemble :
    (∀ (schema : List String) (A B : Frame), A.cols = B.cols →
      (assembleFrames schema [A, B]).rows =
        (A.rows ++ B.rows).map (List.map cleanCell) ∧
      (assembleFrames schema [A, B]).cols = A.cols) ∧
    (∀ schema : List String, assembleFrames schema [] = ⟨schema, []⟩) ∧
    (∀ schema : List String, schema ≠ [] →
      (assembleFrames schema []).cols.length ≠ 0) := by
  refine ⟨?_, fun _ => rfl, ?_⟩
  · intro schema A B _
    exact ⟨rfl, rfl⟩
  · intro schema h
    simpa [assembleFrames, List.length_eq_zero] using h

theorem c7_assemble_witness :
    (assembleFrames ["a"] [⟨["a"], [[Cell.str "1"]]⟩, ⟨["a"], [[Cell.str "2"]]⟩]).rows =
      (([[Cell.str "1"]] : List (List Cell)) ++ [[Cell.str "2"]]).map
        (List.map cleanCell) ∧
    (assembleFrames ["a"] [⟨["a"], [[Cell.str "1"]]⟩, ⟨["a"], [[Cell.str "2"]]⟩]).cols =
      ["a"] ∧
    (assembleFrames ["a"] []).cols.length ≠ 0 :=
  ⟨(c7_assemble.1 ["a"] ⟨["a"], [[Cell.str "1"]]⟩ ⟨["a"], [[Cell.str "2"]]⟩ rfl).1,
    (c7_assemble.1 ["a"] ⟨["a"], [[Cell.str "1"]]⟩ ⟨["a"], [[Cell.str "2"]]⟩ rfl).2,
    c7_assemble.2.2 ["a"] (by decide)⟩

/-! ### Claim C8 -/

/-- C8: synthesis is deterministic and idempotent — `write_parser` stores,
for the target, an artifact text that is a pure function of
`(target, Schema)` alone (so two synthesis calls with identical inputs
produce identical artifacts, hence identical `parse` behaviour, the
template closing only over `EXPECTED_COLUMNS`), and it overwrites whatever
artifact the target had before. -/
theorem c8_synthesis_deterministic :
    ∀ (store1 store2 : ParserStore) (target : String) (cols : List String),
      writeParser store1 target cols target = some (parserSource target cols) ∧
      writeParser store1 target cols target =
        writeParser store2 target cols target := by
  intro s1 s2 t c
  constructor <;> simp [writeParser]

/-! ### Claim C9 -/

/-- C9 fails as stated: a RawTable whose normalised header labels equal the
Schema but whose single data row is narrower than the header does not come
back as the direct projection — the build raises, the joined-text fallback
(including the header row) runs, and the result is two all-sentinel rows
instead of the one data row. -/
theorem c9_counterexample :
    ((([[some "a", some "b"], [some "1"]] : RawTable).headD []).map
        pyStrCell).map normLabel = ["a", "b"] ∧
    alignCandidate ["a", "b"] [[some "a", some "b"], [some "1"]] ≠
      some ⟨["a", "b"], ([[some "1"]] : List (List RawCell)).map
        (List.map rawToCell)⟩ := by
  decide

/-- C9 (amended): for every RawTable whose normalised header labels are
exactly the (duplicate-free) Schema and whose data rows all have the
header's width, the align step is the direct projection: every Schema
column matches itself exactly, nothing is spuriously renamed, and the data
rows are unchanged (absent cells becoming the sentinel). -/
theorem c9_align_idempotent {schema : List String} {header : List RawCell}
    {data : List (List RawCell)} (hnd : schema.Nodup)
    (hcols : (header.map pyStrCell).map normLabel = schema)
    (hlen : ∀ r ∈ data, r.length = schema.length) :
    alignCandidate schema (header :: data) =
      some ⟨schema, data.map (List.map rawToCell)⟩ := by
  have hhl : header.length = schema.length := by
    have h1 := congrArg List.length hcols
    simpa using h1
  simp only [alignCandidate]
  rw [dfBuild_uniform (fun r hr => by rw [hlen r hr, hhl])]
  show some (postProcess schema
    ⟨header.map pyStrCell, data.map (List.map rawToCell)⟩) = _
  rw [postProcess_id hnd hcols
    (by
      intro r hr
      obtain ⟨r0, hr0, rfl⟩ := List.mem_map.mp hr
      rw [List.length_map]
      exact hlen r0 hr0)]

theorem c9_align_idempotent_witness :
    (["a", "b"] : List String).Nodup ∧
    ((([some "a", some " b "] : List RawCell).map pyStrCell).map normLabel =
      ["a", "b"]) ∧
    alignCandidate ["a", "b"] [[some "a", some " b "], [some "1", none]] =
      some ⟨["a", "b"], ([[some "1", none]] : List (List RawCell)).map
        (List.map rawToCell)⟩ :=
  ⟨by decide, by decide,
    @c9_align_idempotent ["a", "b"] [some "a", some " b "] [[some "1", none]]
      (by decide) (by decide) (by decide)⟩

/-! ### Claim C10 -/

/-- C10: in the degraded fallback path the sole column is named `"raw"` and
its cells are every row of the RawTable — header row included — joined by
single spaces; for a Schema none of whose names fuzzy-matches `"raw"` at
the 0.6 cutoff, the joined text is dropped by the projection and every
cell of the aligned table is the null sentinel. -/
theorem c10_raw_fallback {schema : List String} {header : List RawCell}
    {data : List (List RawCell)} (hnd : schema.Nodup)
    (hp : (header :: data).all (fun r => r.all (fun c => c.isSome)) = true)
    (hne : data ≠ []) (hw : maxWidth data ≠ header.length)
    (hm : ∀ n ∈ schema, getCloseMatch n ["raw"] = none) :
    alignCandidate schema (header :: data) =
      some (postProcess schema
        ⟨["raw"], (header :: data).map (fun r => [joinRow r])⟩) ∧
    alignCandidate schema (header :: data) =
      some ⟨schema, (header :: data).map
        (fun _ => List.replicate schema.length (Cell.na "<NA>"))⟩ := by
  refine ⟨alignCandidate_fallback hp hne hw, ?_⟩
  rw [alignCandidate_fallback hp hne hw]
  rw [postProcess_raw hnd hm _
    (by
      intro r hr
      obtain ⟨r0, _, rfl⟩ := List.mem_map.mp hr
      rfl)]
  rw [List.map_map]
  rfl

theorem c10_raw_fallback_witness :
    alignCandidate ["date"] [[some "a", some "b"], [some "x"]] =
      some ⟨["date"], ([[some "a", some "b"], [some "x"]] : RawTable).map
        (fun _ => List.replicate (["date"] : List String).length
          (Cell.na "<NA>"))⟩ :=
  (@c10_raw_fallback ["date"] [some "a", some "b"] [[some "x"]]
    (by decide) (by decide) (by decide) (by decide) (by decide)).2

example : getCloseMatch "date" ["Date"] = some "Date" := by decide
example : getCloseMatch "date" ["raw"] = none := by decide
example : getCloseMatch "a" ["a", "a"] = some "a" := by decide
